import Mathlib

/-!
Shallow embedding of the core of the `solc-typed-ast` repository:

* `src/ast/implementation/declaration/contract_definition.ts` —
  the `ContractDefinition` node: documentation accessor, scope accessor,
  filtered live views over owned children, `interfaceId`, `isSubclassOf`.
* `src/compile/kinds/native.ts` — `getCompilerPrefixForOs`.

Children of a contract node are modelled as tagged records carrying the
sub-kind discriminator that the TypeScript code tests with `instanceof`.
JavaScript reference identity on nodes is modelled by value equality on
the records (counterexamples below always use nodes with distinct ids).
The base classes `ASTNodeWithChildren` (ownership tree) and `ASTContext`
(registry) are not part of the two source files, so their operations are
modelled from the specification where noted.
-/

namespace Solc

/-- Sub-kind discriminator of an owned child node; the TypeScript code
distinguishes the children by `instanceof` tests against these classes. -/
inductive NodeKind where
  | inheritanceSpecifier
  | variableDeclaration
  | modifierDefinition
  | eventDefinition
  | errorDefinition
  | functionDefinition
  | usingForDirective
  | structDefinition
  | enumDefinition
  | structuredDocumentation
  | otherNode
  deriving DecidableEq, Repr

/-- An owned child node of a contract definition.  Only the attributes the
two source files read are modelled: the sub-kind tag, the node id, the
`canonicalSignatureHash` of a function definition and its `isConstructor`
flag. -/
structure ChildNode where
  id : Nat
  kind : NodeKind
  canonicalSignatureHash : String
  isConstructor : Bool
  deriving DecidableEq, Repr

/-- `ContractKind` from `src/ast/constants.ts`: `contract`, `interface`
or `library`. -/
inductive ContractKind where
  | Contract
  | Interface
  | Library
  deriving DecidableEq, Repr

/-- The mutable state of a `ContractDefinition` node
(`contract_definition.ts`, fields declared on lines 15-61): the private
`docString`, the scalar attributes and the ordered list of owned children
(`ownChildren` of the base class). -/
structure ContractDefinition where
  id : Nat
  name : String
  scope : Nat
  kind : ContractKind
  abstract : Bool
  fullyImplemented : Bool
  linearizedBaseContracts : List Nat
  usedErrors : List Nat
  docString : Option String
  children : List ChildNode
  deriving DecidableEq, Repr

/-! ## Ownership-tree operations

`ContractDefinition extends ASTNodeWithChildren`; that base class is not
among the two source files, so its child-list operations are modelled
from the specification (section 4.2 "OwnershipTree"). -/

/-- Modelled from the spec: `OwnershipTree.appendChild(node)` of the
missing `ASTNodeWithChildren` base class — "adds as last child". -/
def appendChild (c : ContractDefinition) (n : ChildNode) : ContractDefinition :=
  { c with children := c.children ++ [n] }

/-- Modelled from the spec: `OwnershipTree.insertAtBeginning(node)` of the
missing `ASTNodeWithChildren` base class — "adds as first child". -/
def insertAtBeginning (c : ContractDefinition) (n : ChildNode) : ContractDefinition :=
  { c with children := n :: c.children }

/-- Replace the first occurrence of `o` in a list with `n`, preserving its
position (helper for `replaceChild`). -/
def replaceFirst : List ChildNode → ChildNode → ChildNode → List ChildNode
  | [], _, _ => []
  | c :: cs, n, o => if c = o then n :: cs else c :: replaceFirst cs n o

/-- Modelled from the spec: `OwnershipTree.replaceChild(newNode, oldNode)`
of the missing `ASTNodeWithChildren` base class — "oldNode must be a
currently-owned child, else fails with NotAChild; swaps in place
preserving position".  `none` models the NotAChild failure. -/
def replaceChild (c : ContractDefinition) (n o : ChildNode) :
    Option ContractDefinition :=
  if o ∈ c.children then some { c with children := replaceFirst c.children n o }
  else none

/-- Modelled from the spec: `OwnershipTree.removeChild(node)` of the
missing `ASTNodeWithChildren` base class — "node must be a currently-owned
child, else fails with NotAChild; clears its parent link".  `none` models
the NotAChild failure. -/
def removeChild (c : ContractDefinition) (n : ChildNode) :
    Option ContractDefinition :=
  if n ∈ c.children then some { c with children := c.children.erase n }
  else none

/-! ## The polymorphic documentation accessor -/

/-- The value space of the `documentation` accessor:
`string | StructuredDocumentation | undefined`. -/
inductive DocValue where
  | str (s : String)
  | node (d : ChildNode)
  | undef
  deriving DecidableEq, Repr

/-- Is an owned child a `StructuredDocumentation` node? -/
def isStructuredDocumentation (n : ChildNode) : Bool :=
  n.kind == NodeKind.structuredDocumentation

/-- `get documentation()` (contract_definition.ts lines 105-113): the
stored `docString` when present, otherwise the first
`StructuredDocumentation` instance among `ownChildren`, otherwise
`undefined`. -/
def getDocumentation (c : ContractDefinition) : DocValue :=
  match c.docString with
  | some s => DocValue.str s
  | none =>
    match c.children.find? isStructuredDocumentation with
    | some d => DocValue.node d
    | none => DocValue.undef

/-- `set documentation(value)` (contract_definition.ts lines 115-135).
The old value is read first; a `StructuredDocumentation` argument clears
`docString` and is wired into the child list (`replaceChild` when a
different structured node was present, no list change when the same node,
`insertAtBeginning` otherwise); a string-or-undefined argument removes a
previously present structured child and stores the value in `docString`.
`none` models a NotAChild exception escaping from the inner calls. -/
def setDocumentation (c : ContractDefinition) (value : DocValue) :
    Option ContractDefinition :=
  let old := getDocumentation c
  match value with
  | DocValue.node d =>
    let c1 := { c with docString := none }
    match old with
    | DocValue.node oldD =>
      if d ≠ oldD then replaceChild c1 d oldD else some c1
    | _ => some (insertAtBeginning c1 d)
  | DocValue.str s =>
    match old with
    | DocValue.node oldD =>
      (removeChild c oldD).map fun c2 => { c2 with docString := some s }
    | _ => some { c with docString := some s }
  | DocValue.undef =>
    match old with
    | DocValue.node oldD =>
      (removeChild c oldD).map fun c2 => { c2 with docString := none }
    | _ => some { c with docString := none }

/-- Does a `DocValue` hold a structured-documentation node? -/
def DocValue.isNode : DocValue → Bool
  | DocValue.node _ => true
  | _ => false

/-- Number of structured-documentation children of a contract node. -/
def structuredChildCount (c : ContractDefinition) : Nat :=
  c.children.countP isStructuredDocumentation

/-- Representation invariant of the polymorphic documentation field:
plain text and a structured child are never stored at the same time, and
at most one structured-documentation child is owned. -/
def docInvariant (c : ContractDefinition) : Prop :=
  (c.docString = none ∨ structuredChildCount c = 0) ∧ structuredChildCount c ≤ 1

/-! ## Filtered live views over owned children -/

/-- The common shape of the derived views: the current children that carry
a given sub-kind tag, in order. -/
def viewOfKind (k : NodeKind) (c : ContractDefinition) : List ChildNode :=
  c.children.filter fun n => n.kind == k

/-- `get vInheritanceSpecifiers()` (lines 173-177). -/
def vInheritanceSpecifiers (c : ContractDefinition) : List ChildNode :=
  c.children.filter fun n => n.kind == NodeKind.inheritanceSpecifier

/-- `get vStateVariables()` (lines 184-188). -/
def vStateVariables (c : ContractDefinition) : List ChildNode :=
  c.children.filter fun n => n.kind == NodeKind.variableDeclaration

/-- `get vModifiers()` (lines 193-197). -/
def vModifiers (c : ContractDefinition) : List ChildNode :=
  c.children.filter fun n => n.kind == NodeKind.modifierDefinition

/-- `get vEvents()` (lines 202-206). -/
def vEvents (c : ContractDefinition) : List ChildNode :=
  c.children.filter fun n => n.kind == NodeKind.eventDefinition

/-- `get vErrors()` (lines 211-215). -/
def vErrors (c : ContractDefinition) : List ChildNode :=
  c.children.filter fun n => n.kind == NodeKind.errorDefinition

/-- `get vFunctions()` (lines 220-224). -/
def vFunctions (c : ContractDefinition) : List ChildNode :=
  c.children.filter fun n => n.kind == NodeKind.functionDefinition

/-- `get vUsingForDirectives()` (lines 229-233). -/
def vUsingForDirectives (c : ContractDefinition) : List ChildNode :=
  c.children.filter fun n => n.kind == NodeKind.usingForDirective

/-- `get vStructs()` (lines 238-242). -/
def vStructs (c : ContractDefinition) : List ChildNode :=
  c.children.filter fun n => n.kind == NodeKind.structDefinition

/-- `get vEnums()` (lines 247-251). -/
def vEnums (c : ContractDefinition) : List ChildNode :=
  c.children.filter fun n => n.kind == NodeKind.enumDefinition

/-- `get vConstructor()` (lines 256-258): first function flagged as
constructor. -/
def vConstructor (c : ContractDefinition) : Option ChildNode :=
  (vFunctions c).find? fun fn => fn.isConstructor

/-! ## Hex parsing and rendering for `interfaceId`

`BigInt("0x" + s)` for a string of hexadecimal digits, `BigInt.toString(16)`
(minimal lowercase hex digits) and `String.padStart(8, "0")`. -/

/-- Numeric value of one hexadecimal digit character, as accepted by the
JavaScript `BigInt` hex literal parser: the code-point ranges 48-57
(`0`-`9`), 97-102 (`a`-`f`) and 65-70 (`A`-`F`). -/
def hexCharVal? (ch : Char) : Option Nat :=
  if 48 ≤ ch.toNat ∧ ch.toNat ≤ 57 then some (ch.toNat - 48)
  else if 97 ≤ ch.toNat ∧ ch.toNat ≤ 102 then some (ch.toNat - 97 + 10)
  else if 65 ≤ ch.toNat ∧ ch.toNat ≤ 70 then some (ch.toNat - 65 + 10)
  else none

/-- Accumulating hex parser over the character list. -/
def parseHexAux : List Char → Nat → Option Nat
  | [], a => some a
  | ch :: cs, a =>
    match hexCharVal? ch with
    | some v => parseHexAux cs (16 * a + v)
    | none => none

/-- `BigInt("0x" + s)` for a digits-only string `s`: fails (a JavaScript
`SyntaxError`) on the empty string or on a non-hex character. -/
def parseHexNum? (s : String) : Option Nat :=
  match s.data with
  | [] => none
  | cs => parseHexAux cs 0

/-- Total spec-side reading "the selector hash interpreted as a hex
integer" (junk digits count as zero; used only under the hypothesis that
the string is valid hex, where it agrees with `parseHexNum?`). -/
def hexNat (s : String) : Nat :=
  s.data.foldl (fun a ch => 16 * a + (hexCharVal? ch).getD 0) 0

/-- A valid 4-byte selector hash: exactly eight hexadecimal digit
characters. -/
def ValidHex8 (s : String) : Prop :=
  s.data.length = 8 ∧ ∀ ch ∈ s.data, (hexCharVal? ch).isSome

instance : DecidablePred ValidHex8 := fun s => by
  unfold ValidHex8; infer_instance

/-- Fuel-indexed digit emitter behind `natToHex`; mirrors the repeated
divide-by-16 of `BigInt.toString(16)`, most significant digit first. -/
def natToHexCore : Nat → Nat → List Char → List Char
  | 0, _, acc => acc
  | fuel + 1, n, acc =>
    let acc' := Nat.digitChar (n % 16) :: acc
    if n / 16 = 0 then acc' else natToHexCore fuel (n / 16) acc'

/-- `BigInt.toString(16)`: minimal-length lowercase hexadecimal rendering
("0" for zero). -/
def natToHex (n : Nat) : String :=
  String.mk (natToHexCore (n + 1) n [])

/-- `String.padStart(w, c)`: left-pad to length `w` (no truncation). -/
def padStart (w : Nat) (pad : Char) (s : String) : String :=
  String.mk (List.replicate (w - s.data.length) pad ++ s.data)

/-- `.map(fn => BigInt("0x" + fn.canonicalSignatureHash))` over a list of
function definitions; `none` models the `SyntaxError` a malformed hash
would raise. -/
def parseSelectors : List ChildNode → Option (List Nat)
  | [] => some []
  | fn :: rest =>
    match parseHexNum? fn.canonicalSignatureHash, parseSelectors rest with
    | some v, some vs => some (v :: vs)
    | _, _ => none

/-- `get interfaceId()` (contract_definition.ts lines 260-274).  The outer
`Option` models a thrown JavaScript exception (`none`); the inner one the
`string | undefined` result.  `reduce((a, b) => a ^ b)` on a non-empty
list is the left fold of XOR over the tail starting from the head. -/
def interfaceId (c : ContractDefinition) : Option (Option String) :=
  if c.kind ≠ ContractKind.Interface then
    some none
  else if (vFunctions c).length = 0 then
    some (some "00000000")
  else
    match parseSelectors (vFunctions c) with
    | none => none
    | some [] => none
    | some (v :: vs) =>
      some (some (padStart 8 '0' (natToHex (vs.foldl Nat.xor v))))

/-! ## Registry, scope and linearization

`ASTContext` is not among the two source files; it is modelled from the
specification (section 4.1 "ContextRegistry"). -/

/-- A node registered in a context: a contract definition, a source unit,
or some other node, each carrying its id. -/
inductive RegNode where
  | contract (c : ContractDefinition)
  | sourceUnit (id : Nat)
  | otherNode (id : Nat)
  deriving DecidableEq, Repr

/-- The id of a registered node. -/
def RegNode.nodeId : RegNode → Nat
  | RegNode.contract c => c.id
  | RegNode.sourceUnit i => i
  | RegNode.otherNode i => i

/-- Modelled from the spec: the missing `ASTContext` registry — a per-
program map from id to node ("single source of truth mapping id → node"),
as an association list. -/
structure ASTContext where
  nodes : List (Nat × RegNode)
  deriving DecidableEq, Repr

/-- First entry of the association list under a given id. -/
def findEntry : List (Nat × RegNode) → Nat → Option RegNode
  | [], _ => none
  | (j, n) :: rest, i => if j = i then some n else findEntry rest i

/-- Modelled from the spec: `ContextRegistry.locate(id)` of the missing
`ASTContext` — "returns the node; fails with UnresolvedReference if
absent" (`none` models the failure). -/
def ASTContext.locate (ctx : ASTContext) (i : Nat) : Option RegNode :=
  findEntry ctx.nodes i

/-- Modelled from the spec: `ContextRegistry.contains(node)` of the
missing `ASTContext` — "true iff node's id is registered in this
instance". -/
def ASTContext.containsNode (ctx : ASTContext) (n : RegNode) : Bool :=
  (findEntry ctx.nodes n.nodeId).isSome

/-- A well-formed registry maps every registered id to a node carrying
that id (registration stores a node under its own id). -/
def ASTContext.wf (ctx : ASTContext) : Prop :=
  ∀ p ∈ ctx.nodes, RegNode.nodeId p.2 = p.1

/-- `get vScope()` (contract_definition.ts lines 140-142): resolve the
stored `scope` id through the registry. -/
def vScopeGet (ctx : ASTContext) (c : ContractDefinition) : Option RegNode :=
  ctx.locate c.scope

/-- `set vScope(value)` (contract_definition.ts lines 144-150): reject a
node the registry does not contain (`none` models the thrown error),
otherwise store its id. -/
def vScopeSet (ctx : ASTContext) (c : ContractDefinition) (value : RegNode) :
    Option ContractDefinition :=
  if ctx.containsNode value then some { c with scope := value.nodeId }
  else none

/-- Resolve a list of ids through `locate`, preserving order; `none`
models an UnresolvedReference escaping from the `.map` callback. -/
def resolveIds (ctx : ASTContext) : List Nat → Option (List RegNode)
  | [] => some []
  | i :: rest =>
    match ctx.locate i, resolveIds ctx rest with
    | some n, some ns => some (n :: ns)
    | _, _ => none

/-- `get vLinearizedBaseContracts()` (lines 155-159): map the stored id
sequence through `locate`, preserving order. -/
def vLinearizedBaseContracts (ctx : ASTContext) (c : ContractDefinition) :
    Option (List RegNode) :=
  resolveIds ctx c.linearizedBaseContracts

/-- `isSubclassOf(other)` (lines 280-282): membership of `other` in the
resolved linearization. -/
def isSubclassOf (ctx : ASTContext) (c other : ContractDefinition) :
    Option Bool :=
  (vLinearizedBaseContracts ctx c).map fun l => decide (RegNode.contract other ∈ l)

/-- `getCompilerPrefixForOs()` (native.ts lines 10-35); `os.arch()` and
`os.type()` results are supplied as plain strings. -/
def getCompilerPrefixForOs (arch osType : String) : Option String :=
  if arch ≠ "x64" ∧ arch ≠ "ia64" then
    none
  else if osType = "Linux" then
    some "linux-amd64"
  else if osType = "Windows_NT" then
    some "windows-amd64"
  else if osType = "Darwin" then
    some "windows-amd64"
  else
    none

/-! ## Concrete nodes and contracts used by counterexamples and witnesses -/

/-- A structured-documentation node (id 5). -/
def docNodeA : ChildNode := ⟨5, NodeKind.structuredDocumentation, "", false⟩

/-- A second, distinct structured-documentation node (id 6). -/
def docNodeB : ChildNode := ⟨6, NodeKind.structuredDocumentation, "", false⟩

/-- A function-definition node with selector hash "aabbccdd" (id 3). -/
def funcNode1 : ChildNode := ⟨3, NodeKind.functionDefinition, "aabbccdd", false⟩

/-- A function-definition node with selector hash "11223344" (id 4). -/
def funcNode2 : ChildNode := ⟨4, NodeKind.functionDefinition, "11223344", false⟩

/-- A contract whose documentation is the plain string "a" (for C3). -/
def cexC3 : ContractDefinition :=
  ⟨1, "C", 0, ContractKind.Contract, false, true, [1], [], some "a", []⟩

/-- A contract owning a function and then a structured-documentation
child, documentation given by the child (for C4). -/
def cexC4 : ContractDefinition :=
  ⟨1, "C", 0, ContractKind.Contract, false, true, [1], [], none, [funcNode1, docNodeA]⟩

/-- A contract carrying both a stored documentation string and a
structured-documentation child (for C5). -/
def cexC5 : ContractDefinition :=
  ⟨1, "C", 0, ContractKind.Contract, false, true, [1], [], some "t", [docNodeA]⟩

/-- A contract carrying both a stored documentation string and a
structured-documentation child (for C9). -/
def cexC9 : ContractDefinition :=
  ⟨1, "C", 0, ContractKind.Contract, false, true, [1], [], some "t", [docNodeB]⟩

/-- A documented (plain string "a") contract used by witnesses. -/
def wDoc : ContractDefinition :=
  ⟨2, "W", 0, ContractKind.Contract, false, true, [2], [], some "a", []⟩

/-- An undocumented contract owning one function, used by witnesses. -/
def wPlain : ContractDefinition :=
  ⟨2, "W", 0, ContractKind.Contract, false, true, [2], [], none, [funcNode1]⟩

/-- A base contract P (id 1) whose linearization is `[1]`. -/
def wContractP : ContractDefinition :=
  ⟨1, "P", 0, ContractKind.Contract, false, true, [1], [], none, []⟩

/-- A derived contract Q (id 2) whose linearization is `[2, 1]`. -/
def wContractQ : ContractDefinition :=
  ⟨2, "Q", 0, ContractKind.Contract, false, true, [2, 1], [], none, []⟩

/-- A registry holding a source unit (id 0) and the contracts P and Q. -/
def wCtx : ASTContext :=
  ⟨[(0, RegNode.sourceUnit 0), (1, RegNode.contract wContractP),
    (2, RegNode.contract wContractQ)]⟩

/-- The sixteen lowercase hexadecimal digit characters, as the renderer
emits them. -/
def lowerHexChars : List Char :=
  (List.range 16).map Nat.digitChar

/-- The spec's wording of the interface-id value: "the bitwise XOR,
folded over `vFunctions` in order, of each function's 4-byte selector
hash interpreted as a hex integer". -/
def specInterfaceIdFold (c : ContractDefinition) : Nat :=
  ((vFunctions c).map fun fn => hexNat fn.canonicalSignatureHash).foldl Nat.xor 0

/-- An interface (id 10) with selector hashes "aabbccdd", "11223344". -/
def wInterfaceAB : ContractDefinition :=
  ⟨10, "I", 0, ContractKind.Interface, false, true, [10], [], none,
    [funcNode1, funcNode2]⟩

/-- The same interface with the two functions in the other order. -/
def wInterfaceBA : ContractDefinition :=
  ⟨11, "I", 0, ContractKind.Interface, false, true, [11], [], none,
    [funcNode2, funcNode1]⟩

/-- An interface (id 12) with no functions. -/
def wInterfaceEmpty : ContractDefinition :=
  ⟨12, "E", 0, ContractKind.Interface, false, true, [12], [], none, []⟩

end Solc

namespace Solc

/-! ## Helper lemmas about `find?`, `countP`, `filter` and `erase` -/

/-- Replacing the first hit of `find?` keeps it the first hit. -/
theorem find?_replaceFirst (l : List ChildNode) (n o : ChildNode)
    (hf : l.find? isStructuredDocumentation = some o)
    (hn : isStructuredDocumentation n = true) :
    (replaceFirst l n o).find? isStructuredDocumentation = some n := by
  induction l with
  | nil => simp at hf
  | cons h t ih =>
    by_cases hh : isStructuredDocumentation h = true
    · rw [List.find?_cons_of_pos _ hh] at hf
      injection hf with hf
      subst hf
      simp only [replaceFirst, if_pos rfl]
      exact List.find?_cons_of_pos _ hn
    · rw [List.find?_cons_of_neg _ hh] at hf
      have hne : h ≠ o := by
        intro he
        exact hh (he ▸ List.find?_some hf)
      simp only [replaceFirst, if_neg hne]
      rw [List.find?_cons_of_neg _ hh]
      exact ih hf

/-- Erasing the only element satisfying a predicate leaves none. -/
theorem countP_erase_eq_zero (l : List ChildNode) (a : ChildNode)
    (hc : l.countP isStructuredDocumentation ≤ 1) (ha : a ∈ l)
    (hp : isStructuredDocumentation a = true) :
    (l.erase a).countP isStructuredDocumentation = 0 := by
  obtain ⟨l₁, l₂, _, heq, herase⟩ := List.exists_erase_eq ha
  subst heq
  rw [herase]
  rw [List.countP_append] at hc ⊢
  rw [List.countP_cons, hp] at hc
  simp only [if_true] at hc
  omega

/-- Erasing an element that a filter rejects does not change the filter. -/
theorem filter_erase_of_neg (p : ChildNode → Bool) (l : List ChildNode)
    (a : ChildNode) (hp : p a = false) :
    (l.erase a).filter p = l.filter p := by
  by_cases ha : a ∈ l
  · obtain ⟨l₁, l₂, _, heq, herase⟩ := List.exists_erase_eq ha
    subst heq
    rw [herase, List.filter_append, List.filter_append, List.filter_cons, hp]
    simp
  · rw [List.erase_of_not_mem ha]

/-- Erasing an element that a filter keeps commutes with the filter. -/
theorem filter_erase_of_pos (p : ChildNode → Bool) (l : List ChildNode)
    (a : ChildNode) (hp : p a = true) (ha : a ∈ l) :
    (l.erase a).filter p = (l.filter p).erase a := by
  obtain ⟨l₁, l₂, hnotmem, heq, herase⟩ := List.exists_erase_eq ha
  subst heq
  rw [herase, List.filter_append, List.filter_append, List.filter_cons, hp]
  have hnm : a ∉ l₁.filter p := fun hmem => hnotmem (List.mem_of_mem_filter hmem)
  rw [List.erase_append_right _ hnm]
  simp

/-- In a well-formed registry a located node carries the id it was looked
up under. -/
theorem findEntry_wf (l : List (Nat × RegNode))
    (hwf : ∀ p ∈ l, RegNode.nodeId p.2 = p.1) (i : Nat) (n : RegNode)
    (h : findEntry l i = some n) : RegNode.nodeId n = i := by
  induction l with
  | nil => simp [findEntry] at h
  | cons p rest ih =>
    obtain ⟨j, m⟩ := p
    simp only [findEntry] at h
    by_cases hj : j = i
    · rw [if_pos hj] at h
      injection h with h
      rw [← h, hwf (j, m) (List.mem_cons_self _ _)]
      exact hj
    · rw [if_neg hj] at h
      exact ih (fun q hq => hwf q (List.mem_cons_of_mem _ hq)) h

/-- Resolution through a well-formed registry turns membership of a
registered contract into membership of its id. -/
theorem resolve_mem_iff (ctx : ASTContext) (other : ContractDefinition)
    (hwf : ctx.wf) (hreg : ctx.locate other.id = some (RegNode.contract other)) :
    ∀ (ids : List Nat) (vs : List RegNode), resolveIds ctx ids = some vs →
      (RegNode.contract other ∈ vs ↔ other.id ∈ ids) := by
  intro ids
  induction ids with
  | nil =>
    intro vs h
    simp only [resolveIds] at h
    injection h with h
    subst h
    simp
  | cons i rest ih =>
    intro vs h
    simp only [resolveIds] at h
    cases hi : ctx.locate i with
    | none =>
      rw [hi] at h
      cases hrest : resolveIds ctx rest <;> rw [hrest] at h <;> simp at h
    | some n =>
      cases hrest : resolveIds ctx rest with
      | none => rw [hi, hrest] at h; simp at h
      | some ns =>
        rw [hi, hrest] at h
        injection h with h
        subst h
        constructor
        · intro hm
          rcases List.mem_cons.mp hm with he | hm'
          · have hni : RegNode.nodeId n = i := findEntry_wf _ hwf _ _ hi
            rw [← he] at hni
            exact List.mem_cons.mpr (Or.inl hni)
          · exact List.mem_cons_of_mem _ ((ih _ hrest).mp hm')
        · intro hm
          rcases List.mem_cons.mp hm with he | hm'
          · rw [← he] at hi
            rw [hreg] at hi
            injection hi with hi
            exact List.mem_cons.mpr (Or.inl hi)
          · exact List.mem_cons_of_mem _ ((ih _ hrest).mpr hm')

/-- If every id resolves, the whole resolution succeeds. -/
theorem resolve_isSome (ctx : ASTContext) :
    ∀ (ids : List Nat), (∀ i ∈ ids, (ctx.locate i).isSome) →
      ∃ vs, resolveIds ctx ids = some vs := by
  intro ids
  induction ids with
  | nil => intro _; exact ⟨[], rfl⟩
  | cons i rest ih =>
    intro hall
    obtain ⟨n, hn⟩ := Option.isSome_iff_exists.mp (hall i (List.mem_cons_self _ _))
    obtain ⟨ns, hns⟩ := ih fun j hj => hall j (List.mem_cons_of_mem _ hj)
    exact ⟨n :: ns, by simp [resolveIds, hn, hns]⟩

/-! ## Helper lemmas about hex parsing, rendering and XOR -/

/-- A hex digit value is below 16. -/
theorem hexCharVal?_lt (ch : Char) (v : Nat) (h : hexCharVal? ch = some v) :
    v < 16 := by
  unfold hexCharVal? at h
  split at h <;> rename_i hc
  · injection h with h
    omega
  · split at h <;> rename_i hc'
    · injection h with h
      omega
    · split at h <;> rename_i hc''
      · injection h with h
        omega
      · cases h

/-- The defaulted hex digit value is below 16. -/
theorem hexCharValD_lt (ch : Char) : (hexCharVal? ch).getD 0 < 16 := by
  cases h : hexCharVal? ch with
  | none => decide
  | some v => exact hexCharVal?_lt ch v h

/-- On all-hex input the accumulating parser succeeds and computes the
total fold. -/
theorem parseHexAux_eq (cs : List Char) :
    ∀ a, (∀ ch ∈ cs, (hexCharVal? ch).isSome) →
      parseHexAux cs a =
        some (cs.foldl (fun x ch => 16 * x + (hexCharVal? ch).getD 0) a) := by
  induction cs with
  | nil => intro a _; rfl
  | cons ch cs ih =>
    intro a hall
    obtain ⟨v, hv⟩ := Option.isSome_iff_exists.mp (hall ch (List.mem_cons_self _ _))
    simp only [parseHexAux, hv, List.foldl_cons]
    rw [ih _ fun d hd => hall d (List.mem_cons_of_mem _ hd)]
    simp [hv]

/-- On a valid 8-digit hex string the parser agrees with the total
reading `hexNat`. -/
theorem parseHexNum?_eq_hexNat (s : String) (h : ValidHex8 s) :
    parseHexNum? s = some (hexNat s) := by
  obtain ⟨hlen, hall⟩ := h
  cases hd : s.data with
  | nil => rw [hd] at hlen; cases hlen
  | cons ch cs =>
    have : parseHexNum? s = parseHexAux (ch :: cs) 0 := by
      simp only [parseHexNum?, hd]
    rw [this, parseHexAux_eq _ _ (by rw [← hd]; exact hall)]
    unfold hexNat
    rw [hd]

/-- The hex fold is bounded by the digit count. -/
theorem hexFold_lt (cs : List Char) :
    ∀ a, cs.foldl (fun x ch => 16 * x + (hexCharVal? ch).getD 0) a <
      (a + 1) * 16 ^ cs.length := by
  induction cs with
  | nil => intro a; simp
  | cons ch cs ih =>
    intro a
    have hd : (hexCharVal? ch).getD 0 < 16 := hexCharValD_lt ch
    calc (ch :: cs).foldl (fun x ch => 16 * x + (hexCharVal? ch).getD 0) a
        = cs.foldl (fun x ch => 16 * x + (hexCharVal? ch).getD 0)
            (16 * a + (hexCharVal? ch).getD 0) := by rw [List.foldl_cons]
      _ < (16 * a + (hexCharVal? ch).getD 0 + 1) * 16 ^ cs.length := ih _
      _ ≤ ((a + 1) * 16) * 16 ^ cs.length :=
          Nat.mul_le_mul_right _ (by omega)
      _ = (a + 1) * 16 ^ (cs.length + 1) := by ring

/-- A valid 8-digit selector hash reads below `2 ^ 32`. -/
theorem hexNat_lt (s : String) (h : ValidHex8 s) : hexNat s < 2 ^ 32 := by
  obtain ⟨hlen, _⟩ := h
  have := hexFold_lt s.data 0
  rw [hlen] at this
  unfold hexNat
  calc s.data.foldl (fun x ch => 16 * x + (hexCharVal? ch).getD 0) 0
      < (0 + 1) * 16 ^ 8 := this
    _ = 2 ^ 32 := by norm_num

/-- XOR keeps values inside a power-of-two bound. -/
theorem xor_lt_two_pow (a b n : Nat) (ha : a < 2 ^ n) (hb : b < 2 ^ n) :
    a ^^^ b < 2 ^ n :=
  Nat.bitwise_lt ha hb

/-- A left XOR fold of bounded values is bounded. -/
theorem foldl_xor_lt (vs : List Nat) :
    ∀ a, a < 2 ^ 32 → (∀ v ∈ vs, v < 2 ^ 32) → vs.foldl Nat.xor a < 2 ^ 32 := by
  induction vs with
  | nil => intro a ha _; exact ha
  | cons v vs ih =>
    intro a ha hall
    rw [List.foldl_cons]
    exact ih _ (xor_lt_two_pow a v 32 ha (hall v (List.mem_cons_self _ _)))
      fun w hw => hall w (List.mem_cons_of_mem _ hw)

/-- The rendered digit list is no longer than the bound's digit count. -/
theorem natToHexCore_length (fuel : Nat) :
    ∀ (k n : Nat) (acc : List Char), n < 16 ^ k → 0 < k →
      (natToHexCore fuel n acc).length ≤ k + acc.length := by
  induction fuel with
  | zero =>
    intro k n acc _ _
    simp only [natToHexCore]
    omega
  | succ fuel ih =>
    intro k n acc hn hk
    simp only [natToHexCore]
    by_cases hdiv : n / 16 = 0
    · rw [if_pos hdiv]
      simp only [List.length_cons]
      omega
    · rw [if_neg hdiv]
      cases k with
      | zero => cases hk
      | succ k =>
        cases k with
        | zero =>
          exfalso
          apply hdiv
          have : n < 16 := by simpa using hn
          omega
        | succ k =>
          have hlt : n / 16 < 16 ^ (k + 1) := by
            rw [Nat.div_lt_iff_lt_mul (by norm_num)]
            calc n < 16 ^ (k + 2) := hn
              _ = 16 ^ (k + 1) * 16 := by ring
          have := ih (k + 1) (n / 16) (Nat.digitChar (n % 16) :: acc) hlt
            (Nat.succ_pos _)
          simp only [List.length_cons] at this ⊢
          omega

/-- The rendering of a value below `2 ^ 32` has at most eight digits. -/
theorem natToHex_length (n : Nat) (h : n < 2 ^ 32) :
    (natToHex n).data.length ≤ 8 := by
  have h16 : n < 16 ^ 8 := by
    calc n < 2 ^ 32 := h
      _ = 16 ^ 8 := by norm_num
  have := natToHexCore_length (n + 1) 8 n [] h16 (by norm_num)
  simpa [natToHex] using this

/-- Every digit the renderer can emit is a lowercase hex digit. -/
theorem digitChar_mem_lowerHex (m : Nat) (h : m < 16) :
    Nat.digitChar m ∈ lowerHexChars :=
  List.mem_map.mpr ⟨m, List.mem_range.mpr h, rfl⟩

/-- All characters of the rendered digit list are lowercase hex digits. -/
theorem natToHexCore_chars (fuel : Nat) :
    ∀ (n : Nat) (acc : List Char), (∀ ch ∈ acc, ch ∈ lowerHexChars) →
      ∀ ch ∈ natToHexCore fuel n acc, ch ∈ lowerHexChars := by
  induction fuel with
  | zero =>
    intro n acc hacc
    simpa [natToHexCore] using hacc
  | succ fuel ih =>
    intro n acc hacc
    have hacc' : ∀ ch ∈ Nat.digitChar (n % 16) :: acc, ch ∈ lowerHexChars := by
      intro ch hch
      rcases List.mem_cons.mp hch with he | hm
      · rw [he]
        exact digitChar_mem_lowerHex _ (Nat.mod_lt _ (by norm_num))
      · exact hacc ch hm
    simp only [natToHexCore]
    by_cases hdiv : n / 16 = 0
    · rw [if_pos hdiv]
      exact hacc'
    · rw [if_neg hdiv]
      exact ih _ _ hacc'

/-- Padding an at-most-8-character string to 8 with a hex digit gives an
8-character all-hex string. -/
theorem padStart_spec (s : String) (hlen : s.data.length ≤ 8)
    (hch : ∀ ch ∈ s.data, ch ∈ lowerHexChars) :
    (padStart 8 '0' s).length = 8 ∧
    ∀ ch ∈ (padStart 8 '0' s).data, ch ∈ lowerHexChars := by
  constructor
  · show (padStart 8 '0' s).data.length = 8
    simp only [padStart, List.length_append, List.length_replicate]
    omega
  · intro ch hmem
    simp only [padStart] at hmem
    rcases List.mem_append.mp hmem with hl | hr
    · rw [List.eq_of_mem_replicate hl]
      decide
    · exact hch ch hr

/-- On an all-valid selector list the `.map(BigInt)` step succeeds and
computes the total hex readings. -/
theorem parseSelectors_eq (l : List ChildNode)
    (hval : ∀ fn ∈ l, ValidHex8 fn.canonicalSignatureHash) :
    parseSelectors l = some (l.map fun fn => hexNat fn.canonicalSignatureHash) := by
  induction l with
  | nil => rfl
  | cons fn rest ih =>
    have h1 : parseHexNum? fn.canonicalSignatureHash =
        some (hexNat fn.canonicalSignatureHash) :=
      parseHexNum?_eq_hexNat _ (hval fn (List.mem_cons_self _ _))
    have h2 := ih fun g hg => hval g (List.mem_cons_of_mem _ hg)
    simp [parseSelectors, h1, h2]

/-- A successful selector parse preserves the list length. -/
theorem parseSelectors_length (l : List ChildNode) :
    ∀ vs, parseSelectors l = some vs → vs.length = l.length := by
  induction l with
  | nil =>
    intro vs h
    injection h with h
    subst h
    rfl
  | cons fn rest ih =>
    intro vs h
    simp only [parseSelectors] at h
    cases hx : parseHexNum? fn.canonicalSignatureHash with
    | none => rw [hx] at h; simp at h
    | some v =>
      cases hr : parseSelectors rest with
      | none => rw [hx, hr] at h; simp at h
      | some ns =>
        rw [hx, hr] at h
        injection h with h
        subst h
        simp [ih ns hr]

/-- Selector parsing of permuted lists yields permuted values (or fails
on both sides). -/
theorem parseSelectors_perm {l₁ l₂ : List ChildNode} (h : l₁.Perm l₂) :
    (parseSelectors l₁ = none ∧ parseSelectors l₂ = none) ∨
    (∃ v₁ v₂, parseSelectors l₁ = some v₁ ∧ parseSelectors l₂ = some v₂ ∧
      v₁.Perm v₂) := by
  induction h with
  | nil => right; exact ⟨[], [], rfl, rfl, List.Perm.nil⟩
  | cons x h ih =>
    cases hx : parseHexNum? x.canonicalSignatureHash with
    | none =>
      left
      constructor <;> simp [parseSelectors, hx]
    | some v =>
      rcases ih with ⟨h1, h2⟩ | ⟨v₁, v₂, h1, h2, hp⟩
      · left
        constructor <;> simp [parseSelectors, hx, h1, h2]
      · right
        exact ⟨v :: v₁, v :: v₂, by simp [parseSelectors, hx, h1],
          by simp [parseSelectors, hx, h2], List.Perm.cons _ hp⟩
  | swap x y l =>
    cases hx : parseHexNum? x.canonicalSignatureHash with
    | none =>
      left
      cases hy : parseHexNum? y.canonicalSignatureHash <;>
        constructor <;> simp [parseSelectors, hx, hy]
    | some vx =>
      cases hy : parseHexNum? y.canonicalSignatureHash with
      | none =>
        left
        constructor <;> simp [parseSelectors, hx, hy]
      | some vy =>
        cases hl : parseSelectors l with
        | none =>
          left
          constructor <;> simp [parseSelectors, hx, hy, hl]
        | some vl =>
          right
          exact ⟨vy :: vx :: vl, vx :: vy :: vl,
            by simp [parseSelectors, hx, hy, hl],
            by simp [parseSelectors, hx, hy, hl], List.Perm.swap vx vy vl⟩
  | trans h₁ h₂ ih₁ ih₂ =>
    rcases ih₁ with ⟨ha, hb⟩ | ⟨v₁, v₂, ha, hb, hp⟩ <;>
      rcases ih₂ with ⟨hc, hd⟩ | ⟨w₁, w₂, hc, hd, hq⟩
    · left; exact ⟨ha, hd⟩
    · rw [hb] at hc; cases hc
    · rw [hb] at hc; cases hc
    · right
      rw [hb] at hc
      injection hc with hc
      subst hc
      exact ⟨v₁, w₂, ha, hd, hp.trans hq⟩

/-- `Nat.xor` with zero on the left, in applied form. -/
theorem xor_zero_left (n : Nat) : Nat.xor 0 n = n := Nat.zero_xor n

/-- The XOR left fold is invariant under permutation of the list. -/
theorem foldl_xor_perm {l₁ l₂ : List Nat} (h : l₁.Perm l₂) :
    ∀ a, l₁.foldl Nat.xor a = l₂.foldl Nat.xor a := by
  induction h with
  | nil => intro a; rfl
  | cons x h ih =>
    intro a
    simp only [List.foldl_cons]
    exact ih _
  | swap x y l =>
    intro a
    simp only [List.foldl_cons]
    have hsw : Nat.xor (Nat.xor a y) x = Nat.xor (Nat.xor a x) y := by
      show (a ^^^ y) ^^^ x = (a ^^^ x) ^^^ y
      rw [Nat.xor_assoc, Nat.xor_assoc, Nat.xor_comm y x]
    rw [hsw]
  | trans h₁ h₂ ih₁ ih₂ =>
    intro a
    rw [ih₁, ih₂]

/-! ## Claims C6, C7: scope accessor and subclass query -/

/-- C6: the vScope setter (contract_definition.ts lines 144-150) fails
exactly when the registry does not contain the target (the state is then
unchanged, as the error is thrown before the assignment); on success the
stored scope becomes the target's id, and the getter
(lines 140-142) resolves the stored scope through `locate`. -/
theorem vScope_set_spec (ctx : ASTContext) (c : ContractDefinition)
    (value : RegNode) :
    (vScopeSet ctx c value = none ↔ ctx.containsNode value = false) ∧
    (ctx.containsNode value = true →
      vScopeSet ctx c value = some { c with scope := value.nodeId } ∧
      vScopeGet ctx { c with scope := value.nodeId } = ctx.locate value.nodeId) ∧
    vScopeGet ctx c = ctx.locate c.scope := by
  refine ⟨?_, fun h => ⟨by simp [vScopeSet, h], rfl⟩, rfl⟩
  unfold vScopeSet
  by_cases h : ctx.containsNode value = true
  · simp [h]
  · simp only [Bool.not_eq_true] at h
    simp [h]

/-- Witness for C6: in the concrete registry `wCtx`, assigning the
registered source unit (id 0) succeeds and stores 0; an unregistered
node (id 9) is rejected. -/
theorem vScope_set_spec_witness :
    vScopeSet wCtx wContractQ (RegNode.sourceUnit 0) =
      some { wContractQ with scope := 0 } ∧
    vScopeGet wCtx { wContractQ with scope := 0 } = some (RegNode.sourceUnit 0) ∧
    vScopeSet wCtx wContractQ (RegNode.sourceUnit 9) = none := by
  obtain ⟨h1, h2⟩ := (vScope_set_spec wCtx wContractQ (RegNode.sourceUnit 0)).2.1 (by decide)
  refine ⟨h1, h2.trans (by decide),
    (vScope_set_spec wCtx wContractQ (RegNode.sourceUnit 9)).1.mpr (by decide)⟩

/-- C7: for contracts in a well-formed registry in which `other` is
registered under its id and every linearized id resolves,
`isSubclassOf` (contract_definition.ts lines 280-282) returns exactly
"other's id appears in `linearizedBaseContracts`"; when additionally the
node's own id heads its linearization (invariant 1), `isSubclassOf` is
reflexive. -/
theorem isSubclassOf_spec (ctx : ASTContext) (c other : ContractDefinition)
    (hwf : ctx.wf)
    (hall : ∀ i ∈ c.linearizedBaseContracts, (ctx.locate i).isSome) :
    (ctx.locate other.id = some (RegNode.contract other) →
      isSubclassOf ctx c other =
        some (decide (other.id ∈ c.linearizedBaseContracts))) ∧
    (c.linearizedBaseContracts.head? = some c.id →
      ctx.locate c.id = some (RegNode.contract c) →
      isSubclassOf ctx c c = some true) := by
  constructor
  · intro hreg
    obtain ⟨vs, hvs⟩ := resolve_isSome ctx c.linearizedBaseContracts hall
    have hiff := resolve_mem_iff ctx other hwf hreg c.linearizedBaseContracts vs hvs
    have hred : isSubclassOf ctx c other =
        some (decide (RegNode.contract other ∈ vs)) := by
      unfold isSubclassOf vLinearizedBaseContracts
      rw [hvs]
      rfl
    rw [hred, decide_eq_decide.mpr hiff]
  · intro hhead hreg
    obtain ⟨vs, hvs⟩ := resolve_isSome ctx c.linearizedBaseContracts hall
    have hiff := resolve_mem_iff ctx c hwf hreg c.linearizedBaseContracts vs hvs
    have hred : isSubclassOf ctx c c =
        some (decide (RegNode.contract c ∈ vs)) := by
      unfold isSubclassOf vLinearizedBaseContracts
      rw [hvs]
      rfl
    rw [hred]
    have hmem : c.id ∈ c.linearizedBaseContracts := by
      cases hl : c.linearizedBaseContracts with
      | nil => rw [hl] at hhead; cases hhead
      | cons a t =>
        rw [hl] at hhead
        injection hhead with hhead
        rw [hhead]
        exact List.mem_cons_self _ _
    rw [decide_eq_true (hiff.mpr hmem)]

/-- Witness for C7: in the concrete registry `wCtx`, Q (linearization
`[2, 1]`) is a subclass of P (id 1), and P is a subclass of itself. -/
theorem isSubclassOf_spec_witness :
    isSubclassOf wCtx wContractQ wContractP = some true ∧
    isSubclassOf wCtx wContractP wContractP = some true := by
  constructor
  · have h := (isSubclassOf_spec wCtx wContractQ wContractP
      (by unfold ASTContext.wf; decide) (by decide)).1 (by decide)
    rw [h]
    decide
  · exact (isSubclassOf_spec wCtx wContractP wContractP
      (by unfold ASTContext.wf; decide) (by decide)).2 rfl (by decide)

/-! ## Claims C3, C4, C5, C9: the documentation accessor -/

/-- C3 counterexample: on a contract whose documentation is the plain
string "a", assigning the plain string "b" is not a no-op — the stored
text and the getter result change. -/
theorem setDocumentation_string_string_cex :
    getDocumentation cexC3 = DocValue.str "a" ∧
    setDocumentation cexC3 (DocValue.str "b") =
      some { cexC3 with docString := some "b" } ∧
    ({ cexC3 with docString := some "b" } : ContractDefinition) ≠ cexC3 ∧
    getDocumentation { cexC3 with docString := some "b" } ≠
      getDocumentation cexC3 := by
  decide

/-- C3 (amended): when the current documentation is a plain string,
assigning a plain string leaves `ownChildren` unchanged (the updated state
differs from the old one in the stored text only) and the getter then
returns the assigned string; the assignment is a no-op exactly when the
assigned string equals the current one
(contract_definition.ts lines 115-135). -/
theorem setDocumentation_string_string_spec (c : ContractDefinition)
    (s0 s : String) (h : c.docString = some s0) :
    setDocumentation c (DocValue.str s) = some { c with docString := some s } ∧
    getDocumentation { c with docString := some s } = DocValue.str s ∧
    (({ c with docString := some s } : ContractDefinition) = c ↔ s = s0) := by
  have hg : getDocumentation c = DocValue.str s0 := by simp [getDocumentation, h]
  refine ⟨?_, by simp [getDocumentation], ?_⟩
  · simp only [setDocumentation, hg]
  · constructor
    · intro he
      have h2 : (some s : Option String) = some s0 := by
        rw [← h]
        exact congrArg ContractDefinition.docString he
      exact Option.some.inj h2
    · intro he
      subst he
      obtain ⟨cid, cname, cscope, ckind, cabs, cfull, clin, cuse, cdoc, cch⟩ := c
      simp only at h
      subst h
      rfl

/-- Witness for C3: the amended statement evaluated on the concrete
documented contract `wDoc`. -/
theorem setDocumentation_string_string_spec_witness :
    setDocumentation wDoc (DocValue.str "b") =
      some { wDoc with docString := some "b" } ∧
    getDocumentation { wDoc with docString := some "b" } = DocValue.str "b" :=
  ⟨(setDocumentation_string_string_spec wDoc "a" "b" rfl).1,
   (setDocumentation_string_string_spec wDoc "a" "b" rfl).2.1⟩

/-- C4 counterexample: on a contract owning `[funcNode1, docNodeA]` with
the structured node `docNodeA` as documentation, assigning the different
structured node `docNodeB` replaces `docNodeA` in place, so `docNodeB`
ends at index 1, not at `ownChildren[0]` — yet the getter returns it. -/
theorem setDocumentation_node_first_cex :
    getDocumentation cexC4 = DocValue.node docNodeA ∧
    setDocumentation cexC4 (DocValue.node docNodeB) =
      some { cexC4 with children := [funcNode1, docNodeB] } ∧
    getDocumentation { cexC4 with children := [funcNode1, docNodeB] } =
      DocValue.node docNodeB ∧
    ({ cexC4 with children := [funcNode1, docNodeB] } :
      ContractDefinition).children.head? ≠ some docNodeB := by
  decide

/-- C4 (amended): assigning a structured-documentation node `D` always
makes the getter return `D`; `D` becomes `ownChildren[0]` whenever the
previous documentation was absent or a plain string, while a previous
different structured node is replaced in place (`D` takes its former
position, which is the first position only if the old node was first)
(contract_definition.ts lines 115-135). -/
theorem setDocumentation_node_spec (c : ContractDefinition) (D : ChildNode)
    (hD : isStructuredDocumentation D = true) :
    ∃ c', setDocumentation c (DocValue.node D) = some c' ∧
      getDocumentation c' = DocValue.node D ∧
      ((getDocumentation c).isNode = false → c'.children.head? = some D) ∧
      (∀ oldD, getDocumentation c = DocValue.node oldD → D ≠ oldD →
        c'.children = replaceFirst c.children D oldD) ∧
      (getDocumentation c = DocValue.node D → c'.children = c.children) := by
  cases hdoc : c.docString with
  | some s =>
    have hg : getDocumentation c = DocValue.str s := by
      simp [getDocumentation, hdoc]
    refine ⟨{ c with docString := none, children := D :: c.children },
      ?_, ?_, ?_, ?_, ?_⟩
    · simp only [setDocumentation, hg, insertAtBeginning]
    · simp only [getDocumentation]
      rw [List.find?_cons_of_pos _ hD]
    · intro _; rfl
    · intro oldD hD' _; rw [hg] at hD'; cases hD'
    · intro hD'; rw [hg] at hD'; cases hD'
  | none =>
    cases hf : c.children.find? isStructuredDocumentation with
    | none =>
      have hg : getDocumentation c = DocValue.undef := by
        simp [getDocumentation, hdoc, hf]
      refine ⟨{ c with docString := none, children := D :: c.children },
        ?_, ?_, ?_, ?_, ?_⟩
      · simp only [setDocumentation, hg, insertAtBeginning]
      · simp only [getDocumentation]
        rw [List.find?_cons_of_pos _ hD]
      · intro _; rfl
      · intro oldD hD' _; rw [hg] at hD'; cases hD'
      · intro hD'; rw [hg] at hD'; cases hD'
    | some oldD =>
      have hg : getDocumentation c = DocValue.node oldD := by
        simp [getDocumentation, hdoc, hf]
      by_cases hDold : D = oldD
      · subst hDold
        refine ⟨{ c with docString := none }, ?_, ?_, ?_, ?_, ?_⟩
        · simp only [setDocumentation, hg]
          simp
        · simp only [getDocumentation, hf]
        · intro hno; rw [hg] at hno; cases hno
        · intro oldD' hD' hne
          rw [hg] at hD'
          cases hD'
          exact absurd rfl hne
        · intro _; rfl
      · have hmem : oldD ∈ c.children := List.mem_of_find?_eq_some hf
        refine ⟨{ c with docString := none, children := replaceFirst c.children D oldD }, ?_, ?_, ?_, ?_, ?_⟩
        · simp only [setDocumentation, hg, replaceChild]
          simp [hDold, hmem]
        · simp only [getDocumentation]
          rw [find?_replaceFirst _ _ _ hf hD]
        · intro hno; rw [hg] at hno; cases hno
        · intro oldD' hD' _
          rw [hg] at hD'
          cases hD'
          rfl
        · intro hD'; rw [hg] at hD'
          cases hD'
          exact absurd rfl hDold

/-- Witness for C4: the amended statement evaluated on the concrete
contract `wPlain` (no previous documentation): `docNodeB` is inserted
first and the getter returns it. -/
theorem setDocumentation_node_spec_witness :
    setDocumentation wPlain (DocValue.node docNodeB) =
      some { wPlain with children := [docNodeB, funcNode1] } ∧
    getDocumentation { wPlain with children := [docNodeB, funcNode1] } =
      DocValue.node docNodeB ∧
    ({ wPlain with children := [docNodeB, funcNode1] } :
      ContractDefinition).children.head? = some docNodeB := by
  obtain ⟨c', h1, h2, h3, _, _⟩ := setDocumentation_node_spec wPlain docNodeB rfl
  have he : setDocumentation wPlain (DocValue.node docNodeB) =
      some { wPlain with children := [docNodeB, funcNode1] } := by decide
  rw [he] at h1
  have hc : c' = { wPlain with children := [docNodeB, funcNode1] } :=
    (Option.some.inj h1).symm
  subst hc
  exact ⟨he, h2, h3 (by decide)⟩

/-- C5 counterexample: a contract can carry the stored text "t" while a
structured-documentation child is among its children (such a state is
reachable: set a structured node, set a string, then `appendChild` a
structured node); assigning the plain string "s" then leaves the
structured child in `ownChildren`, so both representations stay
observable. -/
theorem setDocumentation_string_unique_cex :
    setDocumentation cexC5 (DocValue.str "s") =
      some { cexC5 with docString := some "s" } ∧
    getDocumentation { cexC5 with docString := some "s" } = DocValue.str "s" ∧
    docNodeA ∈ ({ cexC5 with docString := some "s" } :
      ContractDefinition).children ∧
    structuredChildCount { cexC5 with docString := some "s" } ≠ 0 := by
  decide

/-- C5 (amended): under the documentation representation invariant (no
stored text alongside a structured child, at most one structured child),
assigning a plain string makes the getter return it, leaves no
structured-documentation child among `ownChildren`, and preserves the
invariant (contract_definition.ts lines 105-135). -/
theorem setDocumentation_string_spec (c : ContractDefinition) (s : String)
    (hinv : docInvariant c) :
    ∃ c', setDocumentation c (DocValue.str s) = some c' ∧
      getDocumentation c' = DocValue.str s ∧
      structuredChildCount c' = 0 ∧ docInvariant c' := by
  obtain ⟨hrep, hle⟩ := hinv
  cases hdoc : c.docString with
  | some s0 =>
    have hcnt : structuredChildCount c = 0 := by
      rcases hrep with h | h
      · rw [hdoc] at h; cases h
      · exact h
    have hg : getDocumentation c = DocValue.str s0 := by
      simp [getDocumentation, hdoc]
    have hc' : structuredChildCount { c with docString := some s } = 0 := hcnt
    refine ⟨{ c with docString := some s }, ?_, by simp [getDocumentation],
      hc', Or.inr hc', ?_⟩
    · simp only [setDocumentation, hg]
    · rw [hc']
      omega
  | none =>
    cases hf : c.children.find? isStructuredDocumentation with
    | none =>
      have hcnt : structuredChildCount c = 0 := by
        rw [structuredChildCount, List.countP_eq_zero]
        intro a ha
        simpa using List.find?_eq_none.mp hf a ha
      have hg : getDocumentation c = DocValue.undef := by
        simp [getDocumentation, hdoc, hf]
      have hc' : structuredChildCount { c with docString := some s } = 0 := hcnt
      refine ⟨{ c with docString := some s }, ?_, by simp [getDocumentation],
        hc', Or.inr hc', ?_⟩
      · simp only [setDocumentation, hg]
      · rw [hc']
        omega
    | some oldD =>
      have hg : getDocumentation c = DocValue.node oldD := by
        simp [getDocumentation, hdoc, hf]
      have hmem : oldD ∈ c.children := List.mem_of_find?_eq_some hf
      have hp : isStructuredDocumentation oldD = true := List.find?_some hf
      have hcnt : (c.children.erase oldD).countP isStructuredDocumentation = 0 :=
        countP_erase_eq_zero _ _ hle hmem hp
      have hc' : structuredChildCount
          { c with docString := some s, children := c.children.erase oldD } = 0 := hcnt
      refine ⟨{ c with docString := some s, children := c.children.erase oldD },
        ?_, by simp [getDocumentation], hc', Or.inr hc', ?_⟩
      · simp only [setDocumentation, hg, removeChild]
        simp [hmem]
      · rw [hc']
        omega

/-- Witness for C5: the amended statement evaluated on the concrete
documented contract `wDoc`. -/
theorem setDocumentation_string_spec_witness :
    setDocumentation wDoc (DocValue.str "x") =
      some { wDoc with docString := some "x" } ∧
    structuredChildCount { wDoc with docString := some "x" } = 0 := by
  obtain ⟨c', h1, _, h3, _⟩ :=
    setDocumentation_string_spec wDoc "x" ⟨Or.inr rfl, by decide⟩
  have he : setDocumentation wDoc (DocValue.str "x") =
      some { wDoc with docString := some "x" } := by decide
  rw [he] at h1
  have hc : c' = { wDoc with docString := some "x" } := (Option.some.inj h1).symm
  subst hc
  exact ⟨he, h3⟩

/-- C9 counterexample: on a contract carrying both the stored text "t"
and a structured child, assigning `undefined` only clears the stored
text; the structured child stays and the getter then returns it, not
`undefined`. -/
theorem setDocumentation_undef_cex :
    setDocumentation cexC9 DocValue.undef = some { cexC9 with docString := none } ∧
    getDocumentation { cexC9 with docString := none } = DocValue.node docNodeB ∧
    getDocumentation { cexC9 with docString := none } ≠ DocValue.undef := by
  decide

/-- C9 (amended): under the documentation representation invariant,
assigning `undefined` removes the structured-documentation child (if
any), clears the stored text, the getter then returns `undefined`, and
every view of a different sub-kind is unchanged
(contract_definition.ts lines 105-135). -/
theorem setDocumentation_undef_spec (c : ContractDefinition)
    (hinv : docInvariant c) :
    ∃ c', setDocumentation c DocValue.undef = some c' ∧
      getDocumentation c' = DocValue.undef ∧
      c'.docString = none ∧
      structuredChildCount c' = 0 ∧
      ∀ k, k ≠ NodeKind.structuredDocumentation →
        viewOfKind k c' = viewOfKind k c := by
  obtain ⟨hrep, hle⟩ := hinv
  cases hdoc : c.docString with
  | some s0 =>
    have hcnt : structuredChildCount c = 0 := by
      rcases hrep with h | h
      · rw [hdoc] at h; cases h
      · exact h
    have hg : getDocumentation c = DocValue.str s0 := by
      simp [getDocumentation, hdoc]
    refine ⟨{ c with docString := none }, ?_, ?_, rfl, hcnt, fun k _ => rfl⟩
    · simp only [setDocumentation, hg]
    · have hnone : c.children.find? isStructuredDocumentation = none :=
        List.find?_eq_none.mpr fun a ha => by
          simpa using (List.countP_eq_zero.mp hcnt) a ha
      simp [getDocumentation, hnone]
  | none =>
    cases hf : c.children.find? isStructuredDocumentation with
    | none =>
      have hcnt : structuredChildCount c = 0 := by
        rw [structuredChildCount, List.countP_eq_zero]
        intro a ha
        simpa using List.find?_eq_none.mp hf a ha
      have hg : getDocumentation c = DocValue.undef := by
        simp [getDocumentation, hdoc, hf]
      refine ⟨{ c with docString := none }, ?_, ?_, rfl, hcnt, fun k _ => rfl⟩
      · simp only [setDocumentation, hg]
      · simp [getDocumentation, hf]
    | some oldD =>
      have hg : getDocumentation c = DocValue.node oldD := by
        simp [getDocumentation, hdoc, hf]
      have hmem : oldD ∈ c.children := List.mem_of_find?_eq_some hf
      have hp : isStructuredDocumentation oldD = true := List.find?_some hf
      have hcnt : (c.children.erase oldD).countP isStructuredDocumentation = 0 :=
        countP_erase_eq_zero _ _ hle hmem hp
      have hkind : oldD.kind = NodeKind.structuredDocumentation := by
        simpa [isStructuredDocumentation] using hp
      refine ⟨{ c with docString := none, children := c.children.erase oldD },
        ?_, ?_, rfl, hcnt, ?_⟩
      · simp only [setDocumentation, hg, removeChild]
        simp [hmem]
      · have hnone : (c.children.erase oldD).find? isStructuredDocumentation = none :=
          List.find?_eq_none.mpr fun a ha => by
            simpa using (List.countP_eq_zero.mp hcnt) a ha
        simp [getDocumentation, hnone]
      · intro k hk
        have hpk : (fun n => n.kind == k) oldD = false := by
          simp only [hkind]
          exact beq_eq_false_iff_ne.mpr fun he => hk he.symm
        exact filter_erase_of_neg _ _ _ hpk

/-- Witness for C9: the amended statement evaluated on the concrete
contract `wPlain` (no documentation present at all). -/
theorem setDocumentation_undef_spec_witness :
    setDocumentation wPlain DocValue.undef = some wPlain ∧
    getDocumentation wPlain = DocValue.undef ∧
    viewOfKind NodeKind.functionDefinition wPlain = [funcNode1] := by
  obtain ⟨c', h1, h2, _, _, h5⟩ :=
    setDocumentation_undef_spec wPlain ⟨Or.inl rfl, by decide⟩
  have he : setDocumentation wPlain DocValue.undef = some wPlain := by decide
  rw [he] at h1
  have hc : c' = wPlain := (Option.some.inj h1).symm
  subst hc
  exact ⟨he, h2, by decide⟩

/-! ## Claims C1, C2: the interface id -/

/-- C1: `interfaceId` (contract_definition.ts lines 260-274) is
`undefined` for a non-interface; "00000000" for an interface without
functions; and otherwise — provided every function carries a 4-byte
(8-hex-digit) selector hash — the XOR of the selector hashes read as hex
integers, folded over `vFunctions` in order, rendered as an 8-character
lowercase zero-padded hex string. -/
theorem interfaceId_spec (c : ContractDefinition) :
    (c.kind ≠ ContractKind.Interface → interfaceId c = some none) ∧
    (c.kind = ContractKind.Interface → vFunctions c = [] →
      interfaceId c = some (some "00000000")) ∧
    (c.kind = ContractKind.Interface → vFunctions c ≠ [] →
      (∀ fn ∈ vFunctions c, ValidHex8 fn.canonicalSignatureHash) →
      interfaceId c =
        some (some (padStart 8 '0' (natToHex (specInterfaceIdFold c)))) ∧
      (padStart 8 '0' (natToHex (specInterfaceIdFold c))).length = 8 ∧
      ∀ ch ∈ (padStart 8 '0' (natToHex (specInterfaceIdFold c))).data,
        ch ∈ lowerHexChars) := by
  refine ⟨fun h => by simp [interfaceId, h], fun hk hemp => ?_, fun hk hne hval => ?_⟩
  · simp [interfaceId, hk, hemp]
  · have hbound : specInterfaceIdFold c < 2 ^ 32 := by
      unfold specInterfaceIdFold
      apply foldl_xor_lt
      · norm_num
      · intro v hv
        obtain ⟨g, hg, rfl⟩ := List.mem_map.mp hv
        exact hexNat_lt _ (hval g hg)
    have hlen := natToHex_length _ hbound
    have hchars : ∀ ch ∈ (natToHex (specInterfaceIdFold c)).data,
        ch ∈ lowerHexChars := by
      intro ch hch
      have hch' : ch ∈ natToHexCore (specInterfaceIdFold c + 1)
          (specInterfaceIdFold c) [] := by
        simpa [natToHex] using hch
      exact natToHexCore_chars _ _ [] (by intro d hd; cases hd) ch hch'
    obtain ⟨hpl, hpc⟩ := padStart_spec _ hlen hchars
    refine ⟨?_, hpl, hpc⟩
    have hps := parseSelectors_eq (vFunctions c) hval
    cases hl : vFunctions c with
    | nil => exact absurd hl hne
    | cons fn rest =>
      rw [hl] at hps
      have hfold : specInterfaceIdFold c =
          (rest.map fun g => hexNat g.canonicalSignatureHash).foldl Nat.xor
            (hexNat fn.canonicalSignatureHash) := by
        unfold specInterfaceIdFold
        rw [hl]
        simp only [List.map_cons, List.foldl_cons]
        rw [xor_zero_left]
      unfold interfaceId
      rw [if_neg (by simp [hk]), if_neg (by rw [hl]; simp), hl, hps]
      simp only [List.map_cons]
      rw [hfold]

/-- Witness for C1: the empty interface renders "00000000"; the concrete
two-function interface renders the 8-character padded fold. -/
theorem interfaceId_spec_witness :
    interfaceId wInterfaceEmpty = some (some "00000000") ∧
    interfaceId wInterfaceAB =
      some (some (padStart 8 '0' (natToHex (specInterfaceIdFold wInterfaceAB)))) ∧
    (padStart 8 '0' (natToHex (specInterfaceIdFold wInterfaceAB))).length = 8 :=
  ⟨(interfaceId_spec wInterfaceEmpty).2.1 rfl rfl,
   ((interfaceId_spec wInterfaceAB).2.2 rfl (by decide) (by decide)).1,
   ((interfaceId_spec wInterfaceAB).2.2 rfl (by decide) (by decide)).2.1⟩

/-- C2: for interfaces, `interfaceId` is invariant under any permutation
of the function children (XOR is commutative and associative, and a
failing selector parse fails for every order); concretely, selector
hashes "aabbccdd" and "11223344" give "bb99ff99" in either declaration
order. -/
theorem interfaceId_perm_invariant :
    (∀ c c' : ContractDefinition, c.kind = ContractKind.Interface →
      c'.kind = ContractKind.Interface →
      (vFunctions c').Perm (vFunctions c) →
      interfaceId c' = interfaceId c) ∧
    interfaceId wInterfaceAB = some (some "bb99ff99") ∧
    interfaceId wInterfaceBA = some (some "bb99ff99") := by
  refine ⟨?_, by decide, by decide⟩
  intro c c' hk hk' hperm
  unfold interfaceId
  rw [if_neg (show ¬(c'.kind ≠ ContractKind.Interface) by simp [hk'])]
  rw [if_neg (show ¬(c.kind ≠ ContractKind.Interface) by simp [hk])]
  have hlen : (vFunctions c').length = (vFunctions c).length := hperm.length_eq
  by_cases hemp : (vFunctions c).length = 0
  · rw [if_pos (show (vFunctions c').length = 0 by omega), if_pos hemp]
  · rw [if_neg (show ¬(vFunctions c').length = 0 by omega), if_neg hemp]
    rcases parseSelectors_perm hperm with ⟨h1, h2⟩ | ⟨v₁, v₂, h1, h2, hp⟩
    · rw [h1, h2]
    · rw [h1, h2]
      have hl1 : v₁.length = (vFunctions c').length := parseSelectors_length _ _ h1
      have hl2 : v₂.length = (vFunctions c).length := parseSelectors_length _ _ h2
      cases v₁ with
      | nil =>
        exfalso
        rw [List.length_nil] at hl1
        omega
      | cons a t₁ =>
        cases v₂ with
        | nil =>
          exfalso
          rw [List.length_nil] at hl2
          omega
        | cons b t₂ =>
          show some (some (padStart 8 '0' (natToHex (t₁.foldl Nat.xor a)))) =
            some (some (padStart 8 '0' (natToHex (t₂.foldl Nat.xor b))))
          have hfe : t₁.foldl Nat.xor a = t₂.foldl Nat.xor b := by
            have e1 : t₁.foldl Nat.xor a = (a :: t₁).foldl Nat.xor 0 := by
              simp only [List.foldl_cons]
              rw [xor_zero_left]
            have e2 : t₂.foldl Nat.xor b = (b :: t₂).foldl Nat.xor 0 := by
              simp only [List.foldl_cons]
              rw [xor_zero_left]
            rw [e1, e2]
            exact foldl_xor_perm hp 0
          rw [hfe]

/-- Witness for C2: the permutation statement applied to the two concrete
interfaces `wInterfaceBA` and `wInterfaceAB`. -/
theorem interfaceId_perm_invariant_witness :
    interfaceId wInterfaceBA = interfaceId wInterfaceAB :=
  interfaceId_perm_invariant.1 wInterfaceAB wInterfaceBA rfl rfl (by decide)

/-! ## Claim C8: the derived views are live kind-filters -/

/-- C8: every derived view (contract_definition.ts lines 173-251) equals
the sub-kind filter of the current children; that filter is an in-order
subsequence of `ownChildren` containing exactly the children of the
view's sub-kind, and it is recomputed from the live child list, so an
append, a front insertion or a removal is reflected in the very next
access. -/
theorem views_spec (c : ContractDefinition) (n : ChildNode) :
    (vInheritanceSpecifiers c = viewOfKind NodeKind.inheritanceSpecifier c ∧
     vStateVariables c = viewOfKind NodeKind.variableDeclaration c ∧
     vModifiers c = viewOfKind NodeKind.modifierDefinition c ∧
     vEvents c = viewOfKind NodeKind.eventDefinition c ∧
     vErrors c = viewOfKind NodeKind.errorDefinition c ∧
     vFunctions c = viewOfKind NodeKind.functionDefinition c ∧
     vUsingForDirectives c = viewOfKind NodeKind.usingForDirective c ∧
     vStructs c = viewOfKind NodeKind.structDefinition c ∧
     vEnums c = viewOfKind NodeKind.enumDefinition c) ∧
    ∀ k, (viewOfKind k c).Sublist c.children ∧
      (∀ x, x ∈ viewOfKind k c ↔ x ∈ c.children ∧ x.kind = k) ∧
      viewOfKind k (appendChild c n) =
        viewOfKind k c ++ (if n.kind = k then [n] else []) ∧
      viewOfKind k (insertAtBeginning c n) =
        (if n.kind = k then [n] else []) ++ viewOfKind k c ∧
      (∀ c', removeChild c n = some c' →
        viewOfKind k c' =
          if n.kind = k then (viewOfKind k c).erase n else viewOfKind k c) := by
  refine ⟨⟨rfl, rfl, rfl, rfl, rfl, rfl, rfl, rfl, rfl⟩, fun k => ⟨?_, ?_, ?_, ?_, ?_⟩⟩
  · exact List.filter_sublist c.children
  · intro x
    simp [viewOfKind, List.mem_filter]
  · by_cases h : n.kind = k <;>
      simp [viewOfKind, appendChild, List.filter_append, h]
  · by_cases h : n.kind = k <;>
      simp [viewOfKind, insertAtBeginning, List.filter_cons, h]
  · intro c' hc'
    unfold removeChild at hc'
    by_cases hmem : n ∈ c.children
    · rw [if_pos hmem] at hc'
      injection hc' with hc'
      subst hc'
      by_cases h : n.kind = k
      · rw [if_pos h]
        exact filter_erase_of_pos _ _ _ (by simp [h]) hmem
      · rw [if_neg h]
        exact filter_erase_of_neg _ _ _ (by simp [h])
    · rw [if_neg hmem] at hc'
      cases hc'

/-- Witness for C8: concrete evaluations on `wPlain` — its function view,
the effect of appending a second function, and of removing the only one. -/
theorem views_spec_witness :
    vFunctions wPlain = [funcNode1] ∧
    viewOfKind NodeKind.functionDefinition (appendChild wPlain funcNode2) =
      [funcNode1, funcNode2] ∧
    viewOfKind NodeKind.functionDefinition
      { wPlain with children := ([] : List ChildNode) } = [] := by
  obtain ⟨heqs, hk⟩ := views_spec wPlain funcNode2
  obtain ⟨hsub, hmem, happ, hins, hrem⟩ := hk NodeKind.functionDefinition
  refine ⟨?_, ?_, ?_⟩
  · rw [heqs.2.2.2.2.2.1]
    decide
  · rw [happ]
    decide
  · obtain ⟨_, hk1⟩ := views_spec wPlain funcNode1
    obtain ⟨_, _, _, _, hrem1⟩ := hk1 NodeKind.functionDefinition
    rw [hrem1 { wPlain with children := ([] : List ChildNode) } (by decide)]
    decide

/-- C10: `getCompilerPrefixForOs` (native.ts lines 10-35) returns
`undefined` whenever the architecture is neither "x64" nor "ia64";
otherwise "linux-amd64" for Linux, the same string "windows-amd64" for
both Windows_NT and Darwin, and `undefined` for any other OS type. -/
theorem getCompilerPrefixForOs_spec (arch osType : String) :
    (arch ≠ "x64" → arch ≠ "ia64" → getCompilerPrefixForOs arch osType = none) ∧
    ((arch = "x64" ∨ arch = "ia64") →
      (osType = "Linux" → getCompilerPrefixForOs arch osType = some "linux-amd64") ∧
      ((osType = "Windows_NT" ∨ osType = "Darwin") →
        getCompilerPrefixForOs arch osType = some "windows-amd64") ∧
      (osType ≠ "Linux" → osType ≠ "Windows_NT" → osType ≠ "Darwin" →
        getCompilerPrefixForOs arch osType = none)) := by
  constructor
  · intro h1 h2
    simp [getCompilerPrefixForOs, h1, h2]
  · intro harch
    refine ⟨fun hl => ?_, fun ho => ?_, fun h1 h2 h3 => ?_⟩
    · rcases harch with h | h <;> subst h <;> simp [getCompilerPrefixForOs, hl]
    · rcases harch with h | h <;> subst h <;> rcases ho with h' | h' <;>
        simp [getCompilerPrefixForOs, h']
    · rcases harch with h | h <;> subst h <;>
        simp [getCompilerPrefixForOs, h1, h2, h3]

/-- Witness for C10: concrete evaluations discharging the hypotheses of
`getCompilerPrefixForOs_spec`. -/
theorem getCompilerPrefixForOs_spec_witness :
    getCompilerPrefixForOs "arm64" "Linux" = none ∧
    getCompilerPrefixForOs "x64" "Linux" = some "linux-amd64" ∧
    getCompilerPrefixForOs "x64" "Darwin" = some "windows-amd64" ∧
    getCompilerPrefixForOs "ia64" "FreeBSD" = none :=
  ⟨(getCompilerPrefixForOs_spec "arm64" "Linux").1 (by decide) (by decide),
   ((getCompilerPrefixForOs_spec "x64" "Linux").2 (Or.inl rfl)).1 rfl,
   ((getCompilerPrefixForOs_spec "x64" "Darwin").2 (Or.inl rfl)).2.1 (Or.inr rfl),
   ((getCompilerPrefixForOs_spec "ia64" "FreeBSD").2 (Or.inr rfl)).2.2
     (by decide) (by decide) (by decide)⟩

end Solc
